import Mathlib

/-!
Verification development for the elbow weld process scheduler
(`elbow_weld_scheduler_web.py`).

The model below is a shallow embedding of the computational core of the
script: timeline generation (the nested `for` loops building
`timeline_records` and `machine_run_times`), overlap detection between
machines (the two enumerated pair loops), the downtime report, the
overlap-type breakdown, the utilization percentage and its letter grade,
and the step-duration lookup table with its default fallback.

Times are modelled as rationals.  Every duration reachable in the script
is an integer number of minutes or a table value with at most two decimal
places, so Python's `round(x, 2)` (applied when a record is stored) is the
identity on the exact values and is not modelled separately.
Machine display names `"Machine {i}"` are modelled by the integer `i`.
-/

namespace ElbowWeld

/-- One machine configuration, as assembled in the `machines.append({...})`
call of the script: a start time, welds per elbow, number of elbows, and the
four step durations `[global_setup, weld_start, global_stamping, cooling]`. -/
structure Machine where
  start_time : ℚ
  number_of_welds : ℕ
  quantity : ℕ
  step_durations : List ℚ
deriving DecidableEq

/-- `step_labels = ["Set up", "Weld start", "Stamping", "Cooling"]`. -/
def step_labels : List String := ["Set up", "Weld start", "Stamping", "Cooling"]

/-- One entry of `timeline_records`. -/
structure TimelineRecord where
  machine : ℕ
  elbow : ℕ
  weld : ℕ
  step : String
  startTime : ℚ
  endTime : ℚ
  duration : ℚ
deriving DecidableEq

/-- The flattened loop nest `for q in range(quantity): for w in
range(number_of_welds): for step_idx in range(4)` of the generator. -/
def machineTriples (m : Machine) : List (ℕ × ℕ × ℕ) :=
  (List.range m.quantity).flatMap fun q =>
    (List.range m.number_of_welds).flatMap fun w =>
      (List.range 4).map fun s => (q, w, s)

/-- The body of the generation loop: starting from cursor `t0`, emit one
record per `(q, w, step_idx)` triple, advancing the cursor by the step's
duration each time; also return the final cursor (the script's
`current_time` after the loops, used for `machine_run_times`). -/
def genRecords (idx : ℕ) (durs : List ℚ) : ℚ → List (ℕ × ℕ × ℕ) → List TimelineRecord × ℚ
  | t0, [] => ([], t0)
  | t0, (q, w, s) :: rest =>
    let d := durs.getD s 0
    let out := genRecords idx durs (t0 + d) rest
    (⟨idx + 1, q + 1, w + 1, step_labels.getD s "", t0, t0 + d, d⟩ :: out.1, out.2)

/-- The timeline of machine `idx` (0-based index into the `machines` list). -/
def timeline (idx : ℕ) (m : Machine) : List TimelineRecord :=
  (genRecords idx m.step_durations m.start_time (machineTriples m)).1

/-- `timeline_records`: records of all machines in generation order. -/
def timeline_records (machines : List Machine) : List TimelineRecord :=
  machines.enum.flatMap fun p => timeline p.1 p.2

/-- `machine_run_times`: for each machine, `current_time - machine_start_time`
after its generation loop finishes, keyed by the 1-based machine number. -/
def machine_run_times (machines : List Machine) : List (ℕ × ℚ) :=
  machines.enum.map fun p =>
    (p.1 + 1, (genRecords p.1 p.2.step_durations p.2.start_time (machineTriples p.2)).2
      - p.2.start_time)

/-- An interval tuple `(start, end, machine_number)` as the script stores it
in `all_setup_intervals` / `all_stamping_intervals`. -/
structure Iv where
  s : ℚ
  e : ℚ
  mach : ℕ
deriving DecidableEq

/-- `all_setup_intervals`: the intervals appended when `label == "Set up"`,
in generation order. -/
def all_setup_intervals (machines : List Machine) : List Iv :=
  (timeline_records machines).filterMap fun r =>
    if r.step = "Set up" then some ⟨r.startTime, r.endTime, r.machine⟩ else none

/-- `all_stamping_intervals`: the intervals appended when `label == "Stamping"`. -/
def all_stamping_intervals (machines : List Machine) : List Iv :=
  (timeline_records machines).filterMap fun r =>
    if r.step = "Stamping" then some ⟨r.startTime, r.endTime, r.machine⟩ else none

/-- `all_intervals = all_setup_intervals + all_stamping_intervals`. -/
def all_intervals (machines : List Machine) : List Iv :=
  all_setup_intervals machines ++ all_stamping_intervals machines

/-- The guard of both detection loops on a pair of enumerated intervals:
`i1 < i2 and s_machine != t_machine` and
`not (s_end <= t_start or s_start >= t_end)`. -/
def hitTest (a b : ℕ × Iv) : Bool :=
  decide (a.1 < b.1) && decide (a.2.mach ≠ b.2.mach) &&
    !(decide (a.2.e ≤ b.2.s) || decide (a.2.s ≥ b.2.e))

/-- The first detection loop (lines 158-167): all enumerated pairs passing
the guard, in loop order. -/
def overlapHits (l : List Iv) : List ((ℕ × Iv) × (ℕ × Iv)) :=
  l.enum.flatMap fun a => ((l.enum.filter fun b => hitTest a b).map fun b => (a, b))

/-- One overlap detection event, packaged as the spec's OverlapRecord:
the two machine numbers and the window `[max(s1,s2), min(e1,e2))`. -/
structure OverlapRecord where
  machineA : ℕ
  machineB : ℕ
  overlapStart : ℚ
  overlapEnd : ℚ
deriving DecidableEq

/-- The overlap records of the first detection loop, one per detection event. -/
def overlapRecords (l : List Iv) : List OverlapRecord :=
  (overlapHits l).map fun p =>
    ⟨p.1.2.mach, p.2.2.mach, max p.1.2.s p.2.2.s, min p.1.2.e p.2.2.e⟩

/-- `overlap_regions`: per detection event the first loop appends two
`(overlap_start, overlap_end, machine - 1)` drawing tuples, one per machine. -/
def overlap_regions (l : List Iv) : List (ℚ × ℚ × ℕ) :=
  (overlapHits l).flatMap fun p =>
    [(max p.1.2.s p.2.2.s, min p.1.2.e p.2.2.e, p.1.2.mach - 1),
     (max p.1.2.s p.2.2.s, min p.1.2.e p.2.2.e, p.2.2.mach - 1)]

/-- `machine_overlap_counts[f"Machine {k}"]`: the first loop increments the
counters of both machines of every detection event. -/
def machine_overlap_counts (l : List Iv) (k : ℕ) : ℕ :=
  ((overlapHits l).map fun p =>
    (if p.1.2.mach = k then 1 else 0) + (if p.2.2.mach = k then 1 else 0)).sum

/-- The second detection loop (lines 254-268), re-run with the same
enumeration and the same guard for type classification. -/
def secondPassHits (l : List Iv) : List ((ℕ × Iv) × (ℕ × Iv)) :=
  l.enum.flatMap fun a => ((l.enum.filter fun b => hitTest a b).map fun b => (a, b))

/-- The dict update of the second loop: add the overlap duration to
"Setup vs Setup", "Stamping vs Stamping" or "Setup vs Stamping" according to
membership of the two interval tuples in the setup/stamping lists
(`s_type` is "Setup" iff the first tuple is in `all_setup_intervals`). -/
def typeStep (setups stamps : List Iv) (acc : ℚ × ℚ × ℚ) (p : (ℕ × Iv) × (ℕ × Iv)) :
    ℚ × ℚ × ℚ :=
  let d := min p.1.2.e p.2.2.e - max p.1.2.s p.2.2.s
  if p.1.2 ∈ setups ∧ p.2.2 ∈ setups then (acc.1 + d, acc.2.1, acc.2.2)
  else if p.1.2 ∉ setups ∧ p.2.2 ∈ stamps then (acc.1, acc.2.1, acc.2.2 + d)
  else (acc.1, acc.2.1 + d, acc.2.2)

/-- `overlap_type_durations` as the triple
(Setup vs Setup, Setup vs Stamping, Stamping vs Stamping). -/
def overlap_type_durations (setups stamps : List Iv) : ℚ × ℚ × ℚ :=
  (secondPassHits (setups ++ stamps)).foldl (typeStep setups stamps) (0, 0, 0)

/-- `total_overlap_time = sum(overlap_type_durations.values())`. -/
def total_overlap_time (machines : List Machine) : ℚ :=
  let t := overlap_type_durations (all_setup_intervals machines) (all_stamping_intervals machines)
  t.1 + t.2.1 + t.2.2

/-- `total_runtime_all = sum(runtime for _, runtime in machine_run_times)`. -/
def total_runtime_all (machines : List Machine) : ℚ :=
  ((machine_run_times machines).map Prod.snd).sum

/-- Python's `max` over a nonempty list of rationals. -/
def listMax (l : List ℚ) : ℚ := l.foldl max (l.headD 0)

/-- `max_end_time = max([rec["End Time"] for rec in timeline_records])`
(the script only evaluates it when `timeline_records` is nonempty). -/
def max_end_time (records : List TimelineRecord) : ℚ :=
  listMax (records.map TimelineRecord.endTime)

/-- Key-insertion step of a Python dict: keep existing keys in place,
append an unseen key at the end. -/
def insertKey (ks : List ℕ) (k : ℕ) : List ℕ :=
  if k ∈ ks then ks else ks ++ [k]

/-- The key set of `machine_end_times`, in first-appearance order. -/
def machineIds (records : List TimelineRecord) : List ℕ :=
  records.foldl (fun ks r => insertKey ks r.machine) []

/-- `machine_end_times[machine]`: the running maximum of the end times of
that machine's records. -/
def machine_end_time (records : List TimelineRecord) (k : ℕ) : ℚ :=
  listMax ((records.filter fun r => r.machine = k).map TimelineRecord.endTime)

/-- `downtime_data`: per machine its final end time and
`downtime = max_end_time - end_time`. -/
def downtime_data (records : List TimelineRecord) : List (ℕ × ℚ × ℚ) :=
  (machineIds records).map fun k =>
    (k, machine_end_time records k, max_end_time records - machine_end_time records k)

/-- `total_downtime`: the sum of the downtimes of `downtime_data`. -/
def total_downtime (records : List TimelineRecord) : ℚ :=
  ((downtime_data records).map fun e => e.2.2).sum

/-- `utilization_percent` (lines 289-292): computed against `max_end_time*4`,
with a guard `max_end_time > 0`. -/
def utilization_percent (machines : List Machine) : ℚ :=
  let met := max_end_time (timeline_records machines)
  if 0 < met then
    ((met * 4 - total_downtime (timeline_records machines) - total_overlap_time machines)
      / (met * 4)) * 100
  else 0

/-- The claim's fleet-utilization formula, following the spec's words
(section 4.3): `(ΣtotalRuntime − Σdowntime − ΣdistinctOverlapDuration) /
ΣtotalRuntime` as a percentage.  Kept for comparison with
`utilization_percent`, which is the code's definition. -/
def utilizationSpec (machines : List Machine) : ℚ :=
  ((total_runtime_all machines - total_downtime (timeline_records machines)
      - total_overlap_time machines)
    / total_runtime_all machines) * 100

/-- `letter_grade` (lines 295-309): the if/elif chain on the utilization
percentage. -/
def letter_grade (u : ℚ) : String :=
  if 90 ≤ u then "A"
  else if 80 ≤ u then "B"
  else if 70 ≤ u then "C"
  else if 60 ≤ u then "D"
  else "F"

/-- One row of the `lookup_table`. -/
structure LookupEntry where
  pipeSize : ℕ
  dr : ℕ
  weldStart : ℚ
  cooling : ℚ
deriving DecidableEq

/-- The static `lookup_table` of the script. -/
def lookup_table : List LookupEntry :=
  [⟨16, 7, 13.3, 24⟩, ⟨16, 9, 37.24, 20⟩, ⟨16, 11, 9.31, 16⟩, ⟨16, 13, 6.65, 13⟩,
   ⟨18, 7, 1.33, 27⟩, ⟨18, 9, 11.97, 22⟩, ⟨18, 11, 9.31, 20⟩, ⟨18, 13, 7.98, 15⟩,
   ⟨20, 7, 15.96, 30⟩, ⟨20, 9, 13.3, 24⟩, ⟨20, 11, 10.64, 20⟩, ⟨20, 13, 9.31, 16⟩,
   ⟨24, 7, 19.95, 36⟩, ⟨24, 9, 15.96, 29⟩, ⟨24, 11, 13.3, 24⟩, ⟨24, 13, 10.64, 20⟩,
   ⟨30, 7, 19.95, 32⟩, ⟨30, 9, 15.96, 30⟩, ⟨30, 11, 13.3, 24⟩, ⟨30, 17, 10.64, 19⟩]

/-- `match = lookup_table[(Pipe Size == pipe_size) & (DR == dr)]`, as the
first (only) matching row, if any. -/
def lookupMatch (ps dr : ℕ) : Option LookupEntry :=
  lookup_table.find? fun en => en.pipeSize == ps && en.dr == dr

/-- Lines 92-99: on `match.empty` fall back to the default pair `(10, 10)`,
otherwise take the row's `Weld start` and `Cooling` values. -/
def stepDurationsFor (ps dr : ℕ) : ℚ × ℚ :=
  match lookupMatch ps dr with
  | none => (10, 10)
  | some en => (en.weldStart, en.cooling)

/-- The machine configuration appended for one expander: the run never
aborts on a lookup miss, it always produces a machine whose step durations
are `[global_setup, weld_start, global_stamping, cooling]`. -/
def buildMachine (startT : ℚ) (welds qty : ℕ) (gsetup gstamp : ℚ) (ps dr : ℕ) : Machine :=
  let wc := stepDurationsFor ps dr
  ⟨startT, welds, qty, [gsetup, wc.1, gstamp, wc.2]⟩

/-- Modelled from the spec: the repository source contains no remediation
component (only the spec, section 4.4, defines it).  `suggestWaits` maps an
overlap count to a proposed wait duration:
`min(capMinutes, overlapCount × perOverlapPenalty)` when the count is
positive, and `0` otherwise. -/
def suggestWaits (capMinutes perOverlapPenalty overlapCount : ℕ) : ℕ :=
  if 0 < overlapCount then min capMinutes (overlapCount * perOverlapPenalty) else 0

/-- Modelled from the spec: `suggestWaits` with the default parameters
`capMinutes = 10`, `perOverlapPenalty = 2`. -/
def suggestWaitsDefault (overlapCount : ℕ) : ℕ :=
  suggestWaits 10 2 overlapCount

/-- Four machines with unit step durations, one elbow, one weld each and
staggered start times `0, 5, 10, 15`: all four run times are equal (4
minutes) while the final end times differ. -/
def cfgA : List Machine :=
  [⟨0, 1, 1, [1, 1, 1, 1]⟩, ⟨5, 1, 1, [1, 1, 1, 1]⟩,
   ⟨10, 1, 1, [1, 1, 1, 1]⟩, ⟨15, 1, 1, [1, 1, 1, 1]⟩]

/-- Two machines whose setup steps overlap: starts `0` and `5`, durations
`[10, 1, 1, 1]`, one elbow, one weld each. -/
def cfgB : List Machine :=
  [⟨0, 1, 1, [10, 1, 1, 1]⟩, ⟨5, 1, 1, [10, 1, 1, 1]⟩]

/-- C3: `suggestWaits` maps every resource with a positive overlap count to
`min(capMinutes, overlapCount × perOverlapPenalty)`, every resource with
zero overlaps to `0`, and under the defaults `capMinutes = 10`,
`perOverlapPenalty = 2` an overlap count of `3` yields a wait of `6`. -/
theorem suggestWaits_spec (cap pen cnt : ℕ) :
    (0 < cnt → suggestWaits cap pen cnt = min cap (cnt * pen)) ∧
    (cnt = 0 → suggestWaits cap pen cnt = 0) ∧
    suggestWaitsDefault cnt = suggestWaits 10 2 cnt ∧
    suggestWaitsDefault 3 = min 10 (3 * 2) ∧
    suggestWaitsDefault 3 = 6 := by
  refine ⟨fun h => ?_, fun h => ?_, rfl, rfl, rfl⟩ <;>
    simp [suggestWaits, h]

/-- Witness for C3: the defaults applied to an overlap count of 3. -/
theorem suggestWaits_spec_witness : suggestWaits 10 2 3 = min 10 (3 * 2) :=
  (suggestWaits_spec 10 2 3).1 (by norm_num)

/-- C8: the letter grade uses inclusive lower bounds: utilization ≥ 90 is
an A, 80 ≤ u < 90 a B, 70 ≤ u < 80 a C, 60 ≤ u < 70 a D, u < 60 an F. -/
theorem letter_grade_buckets (u : ℚ) :
    (90 ≤ u → letter_grade u = "A") ∧
    (80 ≤ u → u < 90 → letter_grade u = "B") ∧
    (70 ≤ u → u < 80 → letter_grade u = "C") ∧
    (60 ≤ u → u < 70 → letter_grade u = "D") ∧
    (u < 60 → letter_grade u = "F") := by
  unfold letter_grade
  refine ⟨?_, ?_, ?_, ?_, ?_⟩ <;> intros <;> split_ifs <;>
    first
    | rfl
    | linarith

/-- Witness for C8: the boundary value 90 grades as an A. -/
theorem letter_grade_buckets_witness : letter_grade 90 = "A" :=
  (letter_grade_buckets 90).1 (by norm_num)

/-- C7: the parameters (99, 99) miss the lookup table; the default pair
(10, 10) is substituted for the weld-start and cooling durations and the
machine configuration is still produced (the run does not abort). -/
theorem lookup_miss_defaults (startT gsetup gstamp : ℚ) (welds qty : ℕ) :
    lookupMatch 99 99 = none ∧
    stepDurationsFor 99 99 = (10, 10) ∧
    buildMachine startT welds qty gsetup gstamp 99 99 =
      ⟨startT, welds, qty, [gsetup, 10, gstamp, 10]⟩ :=
  ⟨rfl, rfl, rfl⟩

/-- Helper: the classification fold adds every hit's window duration to
exactly one of the three buckets, so the component sum of the accumulator
grows by the sum of all window durations. -/
theorem typeStep_fold_sum (setups stamps : List Iv) :
    ∀ (hits : List ((ℕ × Iv) × (ℕ × Iv))) (acc : ℚ × ℚ × ℚ),
      (hits.foldl (typeStep setups stamps) acc).1
        + (hits.foldl (typeStep setups stamps) acc).2.1
        + (hits.foldl (typeStep setups stamps) acc).2.2
      = acc.1 + acc.2.1 + acc.2.2
        + (hits.map fun p => min p.1.2.e p.2.2.e - max p.1.2.s p.2.2.s).sum := by
  intro hits
  induction hits with
  | nil => intro acc; simp
  | cons p t ih =>
    intro acc
    simp only [List.foldl_cons, List.map_cons, List.sum_cons, ih]
    unfold typeStep
    split_ifs <;> simp <;> ring

/-- Helper: the three overlap-type durations sum to the total window
duration of the overlap records, each record counted once. -/
theorem type_durations_sum (setups stamps : List Iv) :
    (overlap_type_durations setups stamps).1
      + (overlap_type_durations setups stamps).2.1
      + (overlap_type_durations setups stamps).2.2
    = ((overlapRecords (setups ++ stamps)).map
        fun r => r.overlapEnd - r.overlapStart).sum := by
  unfold overlap_type_durations overlapRecords
  rw [typeStep_fold_sum]
  simp only [List.map_map, zero_add]
  rfl

/-- C10: the second detection loop enumerates exactly the same hits as the
first, and the sum of the three overlap-type durations equals the sum of
`overlapEnd − overlapStart` over the records of the first pass, one record
per detection event. -/
theorem second_pass_equivalent (setups stamps : List Iv) :
    secondPassHits (setups ++ stamps) = overlapHits (setups ++ stamps) ∧
    (overlap_type_durations setups stamps).1
        + (overlap_type_durations setups stamps).2.1
        + (overlap_type_durations setups stamps).2.2
      = ((overlapRecords (setups ++ stamps)).map
          fun r => r.overlapEnd - r.overlapStart).sum :=
  ⟨rfl, type_durations_sum setups stamps⟩

/-- Helper: membership in the hit list of the detection loop. -/
theorem mem_overlapHits {l : List Iv} {p : (ℕ × Iv) × (ℕ × Iv)} :
    p ∈ overlapHits l ↔ p.1 ∈ l.enum ∧ p.2 ∈ l.enum ∧ hitTest p.1 p.2 = true := by
  unfold overlapHits
  rw [List.mem_flatMap]
  constructor
  · rintro ⟨a, ha, hp⟩
    rw [List.mem_map] at hp
    obtain ⟨b, hb, rfl⟩ := hp
    rw [List.mem_filter] at hb
    exact ⟨ha, hb.1, hb.2⟩
  · rintro ⟨h1, h2, h3⟩
    exact ⟨p.1, h1, List.mem_map.2 ⟨p.2, List.mem_filter.2 ⟨h2, h3⟩, rfl⟩⟩

/-- C4: for a pair of enumerated intervals from distinct machines, the
detector fires exactly when `s1 < e2` and `s2 < e1` (half-open semantics);
on a hit it records the window `[max(s1,s2), min(e1,e2))`; intervals that
merely touch at a boundary (`e1 = s2`) produce no hit. -/
theorem detect_iff (l : List Iv) (i j : ℕ) (a b : Iv)
    (ha : l[i]? = some a) (hb : l[j]? = some b) (hij : i < j) (hm : a.mach ≠ b.mach) :
    (((i, a), (j, b)) ∈ overlapHits l ↔ (a.s < b.e ∧ b.s < a.e)) ∧
    (a.s < b.e → b.s < a.e →
      (⟨a.mach, b.mach, max a.s b.s, min a.e b.e⟩ : OverlapRecord) ∈ overlapRecords l) ∧
    (a.e = b.s → ((i, a), (j, b)) ∉ overlapHits l) := by
  have hiff : ((i, a), (j, b)) ∈ overlapHits l ↔ (a.s < b.e ∧ b.s < a.e) := by
    rw [mem_overlapHits]
    simp only [List.mk_mem_enum_iff_getElem?, ha, hb, hitTest, Bool.and_eq_true,
      decide_eq_true_eq, Bool.not_eq_true', Bool.or_eq_false_iff, decide_eq_false_iff_not,
      not_le, ge_iff_le]
    tauto
  refine ⟨hiff, fun h1 h2 => ?_, fun he hmem => ?_⟩
  · exact List.mem_map.2 ⟨((i, a), (j, b)), hiff.2 ⟨h1, h2⟩, rfl⟩
  · have := (hiff.1 hmem).2
    rw [he] at this
    exact lt_irrefl _ this

/-- Witness for C4: intervals `[0,10)` on machine 1 and `[5,15)` on
machine 2 produce the overlap record with window `[5,10)`. -/
theorem detect_iff_witness :
    (⟨1, 2, max (0 : ℚ) 5, min (10 : ℚ) 15⟩ : OverlapRecord)
      ∈ overlapRecords [⟨0, 10, 1⟩, ⟨5, 15, 2⟩] :=
  (detect_iff [⟨0, 10, 1⟩, ⟨5, 15, 2⟩] 0 1 ⟨0, 10, 1⟩ ⟨5, 15, 2⟩ rfl rfl
    (by norm_num) (by norm_num)).2.1 (by norm_num) (by norm_num)

/-- Helper: two enumerated entries with the same index are equal. -/
theorem enum_index_inj {α : Type} {l : List α} {x y : ℕ × α}
    (hx : x ∈ l.enum) (hy : y ∈ l.enum) (h : x.1 = y.1) : x = y := by
  rw [List.mem_enum_iff_getElem?] at hx hy
  rw [h] at hx
  rw [hx] at hy
  obtain ⟨x1, x2⟩ := x
  obtain ⟨y1, y2⟩ := y
  simp only at h hy
  rw [h, (Option.some_inj.1 hy)]

/-- Helper: an enumeration has no duplicate entries. -/
theorem enum_nodup {α : Type} (l : List α) : l.enum.Nodup :=
  (List.nodup_enum_map_fst l).of_map

/-- Helper: distinct enumerated entries carry distinct indices. -/
theorem enum_pairwise_ne {α : Type} (l : List α) :
    l.enum.Pairwise fun x y => x.1 ≠ y.1 := by
  have h := List.nodup_enum_map_fst l
  rwa [List.Nodup, List.pairwise_map] at h

/-- C6: every hit of the detection loop pairs two distinct machines and an
index pair `i < j`; the list of index pairs over all hits has no
duplicates (each unordered pair of intervals is counted at most once); and
every overlap record relates two distinct machines. -/
theorem no_self_no_double (l : List Iv) :
    (∀ p ∈ overlapHits l, p.1.2.mach ≠ p.2.2.mach ∧ p.1.1 < p.2.1) ∧
    ((overlapHits l).map fun p => (p.1.1, p.2.1)).Nodup ∧
    (∀ r ∈ overlapRecords l, r.machineA ≠ r.machineB) := by
  have hkey : ∀ p ∈ overlapHits l, p.1.2.mach ≠ p.2.2.mach ∧ p.1.1 < p.2.1 := by
    intro p hp
    rw [mem_overlapHits] at hp
    obtain ⟨-, -, ht⟩ := hp
    unfold hitTest at ht
    simp only [Bool.and_eq_true, decide_eq_true_eq] at ht
    exact ⟨ht.1.2, ht.1.1⟩
  refine ⟨hkey, ?_, ?_⟩
  · unfold overlapHits
    rw [List.map_flatMap]
    apply List.nodup_flatMap.2
    constructor
    · intro a _
      rw [List.map_map]
      apply List.Nodup.map_on
      · intro x hx y hy hxy
        have hx' := (List.mem_filter.1 hx).1
        have hy' := (List.mem_filter.1 hy).1
        simp only [Function.comp] at hxy
        exact enum_index_inj hx' hy' (congrArg Prod.snd hxy)
      · exact (enum_nodup l).filter _
    · apply (enum_pairwise_ne l).imp
      intro x y hxy
      intro k hk1 hk2
      simp only [List.map_map, List.mem_map, Function.comp] at hk1 hk2
      obtain ⟨b1, -, hb1⟩ := hk1
      obtain ⟨b2, -, hb2⟩ := hk2
      exact hxy ((congrArg Prod.fst hb1).trans (congrArg Prod.fst hb2).symm)
  · intro r hr
    obtain ⟨p, hp, rfl⟩ := List.mem_map.1 hr
    exact (hkey p hp).1

/-- Helper: the first record emitted from cursor `t0` starts at `t0`. -/
theorem genRecords_head_start (idx : ℕ) (durs : List ℚ)
    (triples : List (ℕ × ℕ × ℕ)) (t0 : ℚ) :
    ((genRecords idx durs t0 triples).1.head?.map TimelineRecord.startTime)
      = triples.head?.map fun _ => t0 := by
  cases triples with
  | nil => rfl
  | cons a t =>
    obtain ⟨q, w, s⟩ := a
    rfl

/-- Helper: the emitted records form a chain in which each record ends
where the next one starts. -/
theorem genRecords_chain (idx : ℕ) (durs : List ℚ) :
    ∀ (triples : List (ℕ × ℕ × ℕ)) (t0 : ℚ),
      List.Chain' (fun r r' => r.endTime = r'.startTime)
        (genRecords idx durs t0 triples).1 := by
  intro triples
  induction triples with
  | nil => intro t0; exact List.chain'_nil
  | cons a t ih =>
    intro t0
    obtain ⟨q, w, s⟩ := a
    cases t with
    | nil => exact List.chain'_singleton _
    | cons b t' =>
      obtain ⟨q', w', s'⟩ := b
      show List.Chain' _
        (⟨idx + 1, q + 1, w + 1, step_labels.getD s "", t0,
            t0 + durs.getD s 0, durs.getD s 0⟩ ::
          ⟨idx + 1, q' + 1, w' + 1, step_labels.getD s' "", t0 + durs.getD s 0,
            t0 + durs.getD s 0 + durs.getD s' 0, durs.getD s' 0⟩ ::
          (genRecords idx durs (t0 + durs.getD s 0 + durs.getD s' 0) t').1)
      rw [List.chain'_cons]
      exact ⟨rfl, ih (t0 + durs.getD s 0)⟩

/-- Helper: with at least one elbow and one weld the loop nest is nonempty. -/
theorem machineTriples_ne_nil (m : Machine)
    (hq : 1 ≤ m.quantity) (hw : 1 ≤ m.number_of_welds) :
    machineTriples m ≠ [] := by
  have hmem : ((0 : ℕ), (0 : ℕ), (0 : ℕ)) ∈ machineTriples m := by
    unfold machineTriples
    refine List.mem_flatMap.2 ⟨0, List.mem_range.2 hq, ?_⟩
    refine List.mem_flatMap.2 ⟨0, List.mem_range.2 hw, ?_⟩
    exact List.mem_map.2 ⟨0, by simp, rfl⟩
  exact List.ne_nil_of_mem hmem

/-- C5: for a machine with at least one elbow and at least one weld per
elbow, the generated timeline starts at the machine's start time and each
record ends exactly where the next one starts (no gaps, no reordering). -/
theorem timeline_monotone (idx : ℕ) (m : Machine)
    (hq : 1 ≤ m.quantity) (hw : 1 ≤ m.number_of_welds) :
    (timeline idx m).head?.map TimelineRecord.startTime = some m.start_time ∧
    List.Chain' (fun r r' => r.endTime = r'.startTime) (timeline idx m) := by
  constructor
  · unfold timeline
    rw [genRecords_head_start]
    obtain ⟨x, t, h⟩ := List.exists_cons_of_ne_nil (machineTriples_ne_nil m hq hw)
    rw [h]
    rfl
  · exact genRecords_chain idx m.step_durations (machineTriples m) m.start_time

/-- Witness for C5: a machine starting at 5 with durations `[10, 1, 1, 1]`,
one elbow and one weld satisfies the chain property. -/
theorem timeline_monotone_witness :
    (timeline 0 ⟨5, 1, 1, [10, 1, 1, 1]⟩).head?.map TimelineRecord.startTime
        = some (5 : ℚ) ∧
    List.Chain' (fun r r' => r.endTime = r'.startTime)
      (timeline 0 ⟨5, 1, 1, [10, 1, 1, 1]⟩) :=
  timeline_monotone 0 ⟨5, 1, 1, [10, 1, 1, 1]⟩ (by norm_num) (by norm_num)

/-- Helper: the entry of an enumeration is an element of the list. -/
theorem snd_mem_of_mem_enum {α : Type} {l : List α} {x : ℕ × α}
    (hx : x ∈ l.enum) : x.2 ∈ l := by
  rw [List.mem_enum_iff_getElem?] at hx
  exact List.getElem?_mem hx

/-- Helper: membership in a label-filtered interval list. -/
theorem mem_label_filter {records : List TimelineRecord} {lab : String} {x : Iv} :
    (x ∈ records.filterMap fun r =>
        if r.step = lab then some ⟨r.startTime, r.endTime, r.machine⟩ else none) ↔
      ∃ r ∈ records, r.step = lab ∧ x = ⟨r.startTime, r.endTime, r.machine⟩ := by
  rw [List.mem_filterMap]
  constructor
  · rintro ⟨r, hr, hfr⟩
    by_cases hstep : r.step = lab
    · rw [if_pos hstep] at hfr
      exact ⟨r, hr, hstep, (Option.some_inj.1 hfr).symm⟩
    · rw [if_neg hstep] at hfr
      simp at hfr
  · rintro ⟨r, hr, hstep, rfl⟩
    exact ⟨r, hr, by rw [if_pos hstep]⟩

/-- C9: every interval examined by the overlap detection comes from a
timeline record whose step is "Set up" or "Stamping"; no hit (and hence no
overlap count or overlap-type duration) involves a "Weld start" or
"Cooling" interval. -/
theorem overlaps_only_setup_stamping (machines : List Machine)
    (p : (ℕ × Iv) × (ℕ × Iv)) (hp : p ∈ overlapHits (all_intervals machines)) :
    (∃ r ∈ timeline_records machines, (r.step = "Set up" ∨ r.step = "Stamping") ∧
        p.1.2 = ⟨r.startTime, r.endTime, r.machine⟩) ∧
    (∃ r ∈ timeline_records machines, (r.step = "Set up" ∨ r.step = "Stamping") ∧
        p.2.2 = ⟨r.startTime, r.endTime, r.machine⟩) := by
  have key : ∀ x : Iv, x ∈ all_intervals machines →
      ∃ r ∈ timeline_records machines, (r.step = "Set up" ∨ r.step = "Stamping") ∧
        x = ⟨r.startTime, r.endTime, r.machine⟩ := by
    intro x hx
    unfold all_intervals at hx
    rcases List.mem_append.1 hx with hx' | hx'
    · obtain ⟨r, hr, hstep, hx2⟩ :=
        (@mem_label_filter (timeline_records machines) "Set up" x).1 hx'
      exact ⟨r, hr, Or.inl hstep, hx2⟩
    · obtain ⟨r, hr, hstep, hx2⟩ :=
        (@mem_label_filter (timeline_records machines) "Stamping" x).1 hx'
      exact ⟨r, hr, Or.inr hstep, hx2⟩
  rw [mem_overlapHits] at hp
  exact ⟨key p.1.2 (snd_mem_of_mem_enum hp.1), key p.2.2 (snd_mem_of_mem_enum hp.2.1)⟩

/-- Helper: the interval lists of the two-machine configuration `cfgB`. -/
theorem all_intervals_cfgB :
    all_intervals cfgB = [⟨0, 10, 1⟩, ⟨5, 15, 2⟩, ⟨11, 12, 1⟩, ⟨16, 17, 2⟩] := by
  norm_num [all_intervals, all_setup_intervals, all_stamping_intervals, timeline_records,
    timeline, genRecords, machineTriples, cfgB, List.filterMap, List.range_succ]
  decide

/-- Witness for C9: in `cfgB` the overlapping pair of setup intervals is a
hit, and both its intervals trace back to "Set up" or "Stamping" records. -/
theorem overlaps_only_setup_stamping_witness :
    (∃ r ∈ timeline_records cfgB, (r.step = "Set up" ∨ r.step = "Stamping") ∧
        ((((0 : ℕ), (⟨0, 10, 1⟩ : Iv)), ((1 : ℕ), (⟨5, 15, 2⟩ : Iv))) :
          (ℕ × Iv) × (ℕ × Iv)).1.2 = ⟨r.startTime, r.endTime, r.machine⟩) ∧
    (∃ r ∈ timeline_records cfgB, (r.step = "Set up" ∨ r.step = "Stamping") ∧
        ((((0 : ℕ), (⟨0, 10, 1⟩ : Iv)), ((1 : ℕ), (⟨5, 15, 2⟩ : Iv))) :
          (ℕ × Iv) × (ℕ × Iv)).2.2 = ⟨r.startTime, r.endTime, r.machine⟩) :=
  overlaps_only_setup_stamping cfgB ((0, ⟨0, 10, 1⟩), (1, ⟨5, 15, 2⟩)) (by
    rw [all_intervals_cfgB]
    decide)

/-- Helper: a fold of `max` only grows its accumulator. -/
theorem init_le_foldl_max : ∀ (l : List ℚ) (a : ℚ), a ≤ l.foldl max a := by
  intro l
  induction l with
  | nil => intro a; exact le_refl a
  | cons b t ih =>
    intro a
    exact le_trans (le_max_left a b) (ih (max a b))

/-- Helper: every list element is bounded by the fold of `max`. -/
theorem mem_le_foldl_max : ∀ (l : List ℚ) (a x : ℚ), x ∈ l → x ≤ l.foldl max a := by
  intro l
  induction l with
  | nil => intro a x hx; simp at hx
  | cons b t ih =>
    intro a x hx
    rcases List.mem_cons.1 hx with rfl | hx'
    · exact le_trans (le_max_right a x) (init_le_foldl_max t (max a x))
    · exact ih (max a b) x hx'

/-- Helper: the fold of `max` is the accumulator or a list element. -/
theorem foldl_max_mem : ∀ (l : List ℚ) (a : ℚ), l.foldl max a = a ∨ l.foldl max a ∈ l := by
  intro l
  induction l with
  | nil => intro a; exact Or.inl rfl
  | cons b t ih =>
    intro a
    rcases ih (max a b) with h | h
    · rcases max_choice a b with hm | hm
      · exact Or.inl (by rw [List.foldl_cons, h, hm])
      · refine Or.inr ?_
        rw [List.foldl_cons, h, hm]
        exact List.mem_cons_self b t
    · exact Or.inr (List.mem_cons_of_mem b h)

/-- Helper: the maximum of a nonempty list is one of its elements. -/
theorem listMax_mem {l : List ℚ} (h : l ≠ []) : listMax l ∈ l := by
  unfold listMax
  rcases foldl_max_mem l (l.headD 0) with h' | h'
  · rw [h']
    cases l with
    | nil => exact absurd rfl h
    | cons b t => exact List.mem_cons_self b t
  · exact h'

/-- Helper: every element is bounded by the list maximum. -/
theorem mem_le_listMax {l : List ℚ} {x : ℚ} (hx : x ∈ l) : x ≤ listMax l :=
  mem_le_foldl_max l _ x hx

/-- Helper: membership in a dict-key insertion. -/
theorem mem_insertKey {ks : List ℕ} {k k' : ℕ} :
    k ∈ insertKey ks k' ↔ k ∈ ks ∨ k = k' := by
  unfold insertKey
  split_ifs with h
  · constructor
    · exact Or.inl
    · rintro (h' | rfl)
      · exact h'
      · exact h
  · simp [List.mem_append]

/-- Helper: the accumulated dict keys are the accumulator plus the machine
numbers of the records. -/
theorem mem_machineIds_aux :
    ∀ (records : List TimelineRecord) (acc : List ℕ) (k : ℕ),
      k ∈ records.foldl (fun ks r => insertKey ks r.machine) acc ↔
        k ∈ acc ∨ ∃ r ∈ records, r.machine = k := by
  intro records
  induction records with
  | nil => intro acc k; simp
  | cons r t ih =>
    intro acc k
    rw [List.foldl_cons, ih, mem_insertKey]
    constructor
    · rintro ((h | h) | ⟨r', hr', hk⟩)
      · exact Or.inl h
      · exact Or.inr ⟨r, List.mem_cons_self r t, h.symm⟩
      · exact Or.inr ⟨r', List.mem_cons_of_mem _ hr', hk⟩
    · rintro (h | ⟨r', hr', hk⟩)
      · exact Or.inl (Or.inl h)
      · rcases List.mem_cons.1 hr' with rfl | hr''
        · exact Or.inl (Or.inr hk.symm)
        · exact Or.inr ⟨r', hr'', hk⟩

/-- Helper: a reported machine's final end time never exceeds the overall
maximum end time. -/
theorem machine_end_le_max (records : List TimelineRecord) (k : ℕ)
    (hk : k ∈ machineIds records) :
    machine_end_time records k ≤ max_end_time records := by
  obtain ⟨r, hr, hrk⟩ :=
    ((mem_machineIds_aux records [] k).1 hk).resolve_left (by simp)
  have hfil : r ∈ records.filter fun r' => r'.machine = k :=
    List.mem_filter.2 ⟨hr, by simp [hrk]⟩
  have hne : ((records.filter fun r' => r'.machine = k).map TimelineRecord.endTime) ≠ [] :=
    List.ne_nil_of_mem (List.mem_map_of_mem TimelineRecord.endTime hfil)
  have hmem := listMax_mem hne
  obtain ⟨r', hr', hre⟩ := List.mem_map.1 hmem
  unfold machine_end_time max_end_time
  rw [← hre]
  exact mem_le_listMax (List.mem_map_of_mem _ (List.mem_of_mem_filter hr'))

/-- C1 (amended): every entry of the downtime report satisfies
`downtime = max_end_time − (machine's final end time)`, and downtime is
never negative.  (The code computes downtime from final end times, not
from total runtimes.) -/
theorem downtime_amended (machines : List Machine) (dd : ℕ × ℚ × ℚ)
    (hdd : dd ∈ downtime_data (timeline_records machines)) :
    dd.2.1 = machine_end_time (timeline_records machines) dd.1 ∧
    dd.2.2 = max_end_time (timeline_records machines)
      - machine_end_time (timeline_records machines) dd.1 ∧
    0 ≤ dd.2.2 := by
  obtain ⟨k, hk, rfl⟩ := List.mem_map.1 hdd
  refine ⟨rfl, rfl, ?_⟩
  rw [sub_nonneg]
  exact machine_end_le_max _ k hk

/-- Helper: the timeline of the staggered configuration `cfgA`. -/
theorem timeline_records_cfgA :
    timeline_records cfgA =
      [⟨1, 1, 1, "Set up", 0, 1, 1⟩, ⟨1, 1, 1, "Weld start", 1, 2, 1⟩,
       ⟨1, 1, 1, "Stamping", 2, 3, 1⟩, ⟨1, 1, 1, "Cooling", 3, 4, 1⟩,
       ⟨2, 1, 1, "Set up", 5, 6, 1⟩, ⟨2, 1, 1, "Weld start", 6, 7, 1⟩,
       ⟨2, 1, 1, "Stamping", 7, 8, 1⟩, ⟨2, 1, 1, "Cooling", 8, 9, 1⟩,
       ⟨3, 1, 1, "Set up", 10, 11, 1⟩, ⟨3, 1, 1, "Weld start", 11, 12, 1⟩,
       ⟨3, 1, 1, "Stamping", 12, 13, 1⟩, ⟨3, 1, 1, "Cooling", 13, 14, 1⟩,
       ⟨4, 1, 1, "Set up", 15, 16, 1⟩, ⟨4, 1, 1, "Weld start", 16, 17, 1⟩,
       ⟨4, 1, 1, "Stamping", 17, 18, 1⟩, ⟨4, 1, 1, "Cooling", 18, 19, 1⟩] := by
  norm_num [timeline_records, timeline, genRecords, machineTriples, cfgA,
    List.range_succ, step_labels, List.enum, List.enumFrom, List.flatMap_cons,
    List.flatMap_nil]

/-- Helper: all four machines of `cfgA` have total run time 4. -/
theorem machine_run_times_cfgA :
    machine_run_times cfgA = [(1, 4), (2, 4), (3, 4), (4, 4)] := by
  norm_num [machine_run_times, genRecords, machineTriples, cfgA, List.range_succ,
    List.enum, List.enumFrom, List.flatMap_cons, List.flatMap_nil]

/-- Helper: the downtime report of `cfgA`. -/
theorem downtime_data_cfgA :
    downtime_data (timeline_records cfgA) =
      [(1, 4, 15), (2, 9, 10), (3, 14, 5), (4, 19, 0)] := by
  rw [timeline_records_cfgA]
  norm_num [downtime_data, machineIds, insertKey, machine_end_time, max_end_time,
    listMax, List.foldl, List.filter, max_def]

/-- Helper: the maximum end time of `cfgA`. -/
theorem max_end_cfgA : max_end_time (timeline_records cfgA) = 19 := by
  rw [timeline_records_cfgA]
  norm_num [max_end_time, listMax, List.foldl, max_def]

/-- Helper: the total downtime of `cfgA`. -/
theorem total_downtime_cfgA : total_downtime (timeline_records cfgA) = 30 := by
  unfold total_downtime
  rw [downtime_data_cfgA]
  norm_num

/-- Helper: the setup intervals of `cfgA`. -/
theorem setup_cfgA :
    all_setup_intervals cfgA = [⟨0, 1, 1⟩, ⟨5, 6, 2⟩, ⟨10, 11, 3⟩, ⟨15, 16, 4⟩] := by
  unfold all_setup_intervals
  rw [timeline_records_cfgA]
  norm_num [List.filterMap]
  decide

/-- Helper: the stamping intervals of `cfgA`. -/
theorem stamping_cfgA :
    all_stamping_intervals cfgA = [⟨2, 3, 1⟩, ⟨7, 8, 2⟩, ⟨12, 13, 3⟩, ⟨17, 18, 4⟩] := by
  unfold all_stamping_intervals
  rw [timeline_records_cfgA]
  norm_num [List.filterMap]
  decide

/-- Helper: no intervals of `cfgA` overlap, so the overlap time is zero. -/
theorem total_overlap_cfgA : total_overlap_time cfgA = 0 := by
  simp only [total_overlap_time]
  rw [setup_cfgA, stamping_cfgA]
  have h : secondPassHits
      (([⟨0, 1, 1⟩, ⟨5, 6, 2⟩, ⟨10, 11, 3⟩, ⟨15, 16, 4⟩] : List Iv)
        ++ [⟨2, 3, 1⟩, ⟨7, 8, 2⟩, ⟨12, 13, 3⟩, ⟨17, 18, 4⟩]) = [] := by
    decide
  simp only [overlap_type_durations, h, List.foldl_nil]
  norm_num

/-- Counterexample for C1: in `cfgA` all four machines have the same total
runtime (4 minutes), so the claimed formula (max runtime − own runtime)
gives every machine downtime 0, but the code reports downtimes
15, 10, 5, 0 because it works with final end times. -/
theorem downtime_claim_false :
    downtime_data (timeline_records cfgA)
        = [(1, 4, 15), (2, 9, 10), (3, 14, 5), (4, 19, 0)] ∧
    machine_run_times cfgA = [(1, 4), (2, 4), (3, 4), (4, 4)] ∧
    ((downtime_data (timeline_records cfgA)).map fun dd => dd.2.2)
      ≠ ((machine_run_times cfgA).map fun q =>
          listMax ((machine_run_times cfgA).map Prod.snd) - q.2) := by
  refine ⟨downtime_data_cfgA, machine_run_times_cfgA, ?_⟩
  rw [downtime_data_cfgA, machine_run_times_cfgA]
  norm_num [listMax, List.foldl, max_def]

/-- Witness for C1 (amended): machine 1 of `cfgA` ends at 4, and its
reported downtime 15 equals the maximum end time minus 4 and is
nonnegative. -/
theorem downtime_amended_witness :
    (4 : ℚ) = machine_end_time (timeline_records cfgA) 1 ∧
    (15 : ℚ) = max_end_time (timeline_records cfgA)
      - machine_end_time (timeline_records cfgA) 1 ∧
    (0 : ℚ) ≤ 15 :=
  downtime_amended cfgA (1, 4, 15) (by rw [downtime_data_cfgA]; decide)

/-- C2 (amended): when the maximum end time is positive, the utilization
percentage equals `(4·maxEnd − totalDowntime − ΣoverlapDuration) /
(4·maxEnd) × 100`, where the overlap durations are summed once per overlap
record.  (The base is four times the maximum end time, not the sum of the
machine runtimes.) -/
theorem utilization_amended (machines : List Machine)
    (h : 0 < max_end_time (timeline_records machines)) :
    utilization_percent machines =
      ((max_end_time (timeline_records machines) * 4
          - total_downtime (timeline_records machines)
          - ((overlapRecords (all_intervals machines)).map
              fun r => r.overlapEnd - r.overlapStart).sum)
        / (max_end_time (timeline_records machines) * 4)) * 100 := by
  have ho : total_overlap_time machines
      = ((overlapRecords (all_intervals machines)).map
          fun r => r.overlapEnd - r.overlapStart).sum := by
    simp only [total_overlap_time, all_intervals]
    exact type_durations_sum _ _
  simp only [utilization_percent]
  rw [if_pos h, ho]

/-- Witness for C2 (amended): the amended formula evaluated on `cfgA`. -/
theorem utilization_amended_witness :
    utilization_percent cfgA =
      ((max_end_time (timeline_records cfgA) * 4
          - total_downtime (timeline_records cfgA)
          - ((overlapRecords (all_intervals cfgA)).map
              fun r => r.overlapEnd - r.overlapStart).sum)
        / (max_end_time (timeline_records cfgA) * 4)) * 100 :=
  utilization_amended cfgA (by rw [max_end_cfgA]; norm_num)

/-- Counterexample for C2: on `cfgA` the code computes a utilization of
`1150/19 ≈ 60.5 %` (base `4·maxEnd = 76`), while the claimed formula over
the sum of runtimes (16) gives `−87.5 %`; the two disagree. -/
theorem utilization_claim_false :
    utilization_percent cfgA = 1150 / 19 ∧
    utilizationSpec cfgA = -(175 / 2) ∧
    utilization_percent cfgA ≠ utilizationSpec cfgA := by
  have h1 : utilization_percent cfgA = 1150 / 19 := by
    simp only [utilization_percent]
    rw [max_end_cfgA, total_downtime_cfgA, total_overlap_cfgA,
      if_pos (show (0 : ℚ) < 19 by norm_num)]
    norm_num
  have h2 : utilizationSpec cfgA = -(175 / 2) := by
    have hr : total_runtime_all cfgA = 16 := by
      unfold total_runtime_all
      rw [machine_run_times_cfgA]
      norm_num
    unfold utilizationSpec
    rw [total_downtime_cfgA, total_overlap_cfgA, hr]
    norm_num
  exact ⟨h1, h2, by rw [h1, h2]; norm_num⟩

end ElbowWeld
